import Mathlib

/-!
# The service worker `static/sw.js`

A shallow embedding of the three lifecycle handlers of the service worker
(`install`, `fetch`, `activate`) over an explicit model of the host runtime
they are glued onto: cache storage, the network, and promises.

* The script itself (`CACHE_NAME`, `urlsToCache` and the three handlers) is
  transcribed from `static/sw.js`.
* The host primitives the script calls (`caches.open`, `cache.addAll`,
  `caches.match`, `caches.keys`, `caches.delete`, `fetch`, `Promise.all`,
  `.then`) are not part of the script.  They are modelled by state passing
  over a `World`, following the description of the consumed interfaces in the
  specification.

A promise is a function from the world before to its settlement and the world
after; the settlement of the promise a handler hands to `event.waitUntil` /
`event.respondWith` is the outcome of the handler.

The failures of the host are those the specification lists: a network fetch
that is rejected (during install or on a cache miss) and the deletion of a
bucket that is rejected.  Opening a bucket, looking a request up and listing
the bucket names do not fail.
-/

namespace SW

/-! ## Data model -/

/-- Request, identified by its URL. -/
structure Request where
  url : String
deriving DecidableEq, Repr

/-- Response, as stored in a cache or produced by the network. -/
structure Response where
  body : String
deriving DecidableEq, Repr

/-- Reason of a rejected promise. -/
structure Rejection where
  reason : String
deriving DecidableEq, Repr

/-- How a promise settles. -/
inductive Settled (α : Type) where
  | fulfilled (value : α)
  | rejected (reason : Rejection)
deriving DecidableEq, Repr

/-- Cached entries of one bucket: request and response pairs, oldest first. -/
abbrev Cache := List (Request × Response)

/-- Cache storage: named buckets in creation order. -/
abbrev CacheStorage := List (String × Cache)

/-- The part of the host the script has no control over: what the network
answers to a request, and for which bucket names a deletion fails. -/
structure Host where
  network : Request → Settled Response
  deleteFailure : String → Option Rejection

/-- The state the handlers act on: cache storage, and the log of the network
fetches issued so far (oldest first). -/
structure World where
  caches : CacheStorage
  fetched : List Request
deriving DecidableEq, Repr

/-- A promise: run from a world, it settles and leaves a world. -/
def Promise (α : Type) : Type := World → Settled α × World

/-! ## Host primitives -/

/-- Modelled from the spec: `Promise.resolve`, a promise already fulfilled
with a value; it has no effect on the world. -/
def Promise.resolve {α : Type} (value : α) : Promise α :=
  fun w => (Settled.fulfilled value, w)

/-- Modelled from the spec: `promise.then(onFulfilled)`.  The callback runs on
the value of a fulfilled promise, in the world that promise left; a rejection
skips the callback and is passed on. -/
def Promise.then_ {α β : Type} (p : Promise α) (onFulfilled : α → Promise β) : Promise β :=
  fun w =>
    match p w with
    | (Settled.fulfilled value, w1) => onFulfilled value w1
    | (Settled.rejected reason, w1) => (Settled.rejected reason, w1)

/-- Modelled from the spec: `Promise.all`.  The promises of the list were all
started (here: in list order) and each one runs to its end whatever the others
do; the result is fulfilled with all values when every promise is fulfilled
and rejected with the first rejection otherwise. -/
def Promise.all {α : Type} : List (Promise α) → Promise (List α)
  | [] => fun w => (Settled.fulfilled [], w)
  | p :: ps => fun w =>
    match p w with
    | (r, w1) =>
      match Promise.all ps w1 with
      | (rs, w2) =>
        match r, rs with
        | Settled.rejected reason, _ => (Settled.rejected reason, w2)
        | Settled.fulfilled _, Settled.rejected reason => (Settled.rejected reason, w2)
        | Settled.fulfilled value, Settled.fulfilled values =>
          (Settled.fulfilled (value :: values), w2)

/-- Modelled from the spec: the network fetch primitive (single
fetch-by-request).  The fetch is logged and settles as the network decides. -/
def fetch (h : Host) (request : Request) : Promise Response :=
  fun w => (h.network request, { w with fetched := w.fetched ++ [request] })

/-- Modelled from the spec: match-request-to-entry within one bucket, the first
entry stored under the request. -/
def cache_match (cache : Cache) (request : Request) : Option Response :=
  (cache.find? (fun entry => entry.1 == request)).map (fun entry => entry.2)

/-- Modelled from the spec: `caches.match`, the lookup of a request in any
existing bucket, buckets taken in creation order.  Fulfilled with the entry
found, or with nothing (`undefined`) when no bucket has one. -/
def caches_match (request : Request) : Promise (Option Response) :=
  fun w => (Settled.fulfilled (w.caches.findSome? (fun bucket => cache_match bucket.2 request)), w)

/-- Modelled from the spec: `caches.open`, open-bucket-by-name.  The bucket is
created empty when it does not exist; the promise is fulfilled with a handle
on the bucket (its name). -/
def caches_open (cacheName : String) : Promise String :=
  fun w =>
    if w.caches.any (fun bucket => bucket.1 == cacheName) then
      (Settled.fulfilled cacheName, w)
    else
      (Settled.fulfilled cacheName, { w with caches := w.caches ++ [(cacheName, [])] })

/-- Modelled from the spec: the store of one entry in a bucket.  Keys are unique
in the underlying cache store: an entry under the same request is replaced. -/
def cache_put (cache : Cache) (request : Request) (response : Response) : Cache :=
  cache.filter (fun entry => entry.1 != request) ++ [(request, response)]

/-- Modelled from the spec: the store of a batch of entries, one after the
other, in the bucket a handle names. -/
def cache_putAll (cacheName : String) (entries : List (Request × Response)) : Promise Unit :=
  fun w =>
    (Settled.fulfilled (),
      { w with caches := w.caches.map (fun bucket =>
          if bucket.1 == cacheName then
            (bucket.1, entries.foldl (fun cache entry => cache_put cache entry.1 entry.2) bucket.2)
          else bucket) })

/-- Modelled from the spec: `cache.addAll`, batch-add-by-URL-list.  Every URL
of the list is fetched; when every fetch succeeded the responses are stored
under their requests, and when any one fetch failed the promise is rejected
and nothing is stored (all or nothing). -/
def cache_addAll (h : Host) (cache : String) (urls : List String) : Promise Unit :=
  (Promise.all (urls.map (fun url => fetch h (Request.mk url)))).then_
    (fun responses => cache_putAll cache ((urls.map Request.mk).zip responses))

/-- Modelled from the spec: `caches.keys`, enumerate-bucket-names. -/
def caches_keys : Promise (List String) :=
  fun w => (Settled.fulfilled (w.caches.map (fun bucket => bucket.1)), w)

/-- Modelled from the spec: `caches.delete`, delete-bucket-by-name.  A deletion
that fails rejects and leaves the storage as it was; otherwise the bucket is
removed and the promise is fulfilled with whether the bucket existed. -/
def caches_delete (h : Host) (cacheName : String) : Promise Bool :=
  fun w =>
    match h.deleteFailure cacheName with
    | some reason => (Settled.rejected reason, w)
    | none =>
      (Settled.fulfilled (w.caches.any (fun bucket => bucket.1 == cacheName)),
        { w with caches := w.caches.filter (fun bucket => bucket.1 != cacheName) })

/-- Modelled from the spec: `event.waitUntil`, the event is kept alive until
the promise settles, and settles as the promise does. -/
def waitUntil {α : Type} (p : Promise α) : Promise α := p

/-- Modelled from the spec: `event.respondWith`, the page receives what the
promise settles to. -/
def respondWith (p : Promise Response) : Promise Response := p

/-! ## The script -/

/-- Line 2 of `sw.js`. -/
def CACHE_NAME : String := "scheidsrechter-app-v1"

/-- Lines 3 to 7 of `sw.js`. -/
def urlsToCache : List String :=
  ["/", "/app/static/icon-192.png", "/app/static/icon-512.png"]

/-- The `install` listener, lines 10 to 15. -/
def onInstall (h : Host) : Promise Unit :=
  waitUntil
    ((caches_open CACHE_NAME).then_ (fun cache => cache_addAll h cache urlsToCache))

/-- The `fetch` listener, lines 18 to 26: `response || fetch(event.request)`
is the cached response when there is one (a response object is truthy,
`undefined` is not) and the network fetch otherwise. -/
def onFetch (h : Host) (request : Request) : Promise Response :=
  respondWith
    ((caches_match request).then_ (fun response =>
      match response with
      | some cached => Promise.resolve cached
      | none => fetch h request))

/-- The `activate` listener, lines 29 to 38. -/
def onActivate (h : Host) : Promise (List Bool) :=
  waitUntil
    (caches_keys.then_ (fun cacheNames =>
      Promise.all
        ((cacheNames.filter (fun cacheName => cacheName != CACHE_NAME)).map
          (fun cacheName => caches_delete h cacheName))))

/-! ## Reading a world -/

/-- The entries of the first bucket with a given name, if there is one. -/
def lookupBucket (storage : CacheStorage) (cacheName : String) : Option Cache :=
  (storage.find? (fun bucket => bucket.1 == cacheName)).map (fun bucket => bucket.2)

/-- The names of the buckets of a storage. -/
def bucketNames (storage : CacheStorage) : List String :=
  storage.map (fun bucket => bucket.1)

/-! ## Concrete hosts and worlds -/

/-- A host whose network answers every request and whose deletions succeed. -/
def onlineHost : Host where
  network := fun request => Settled.fulfilled ⟨"content of " ++ request.url⟩
  deleteFailure := fun _ => none

/-- A host whose network is down: every fetch is rejected. -/
def offlineHost : Host where
  network := fun _ => Settled.rejected ⟨"network down"⟩
  deleteFailure := fun _ => none

/-- A host that serves everything but the second icon of the asset list. -/
def missingIconHost : Host where
  network := fun request =>
    if request.url == "/app/static/icon-512.png" then Settled.rejected ⟨"icon-512 unreachable"⟩
    else Settled.fulfilled ⟨"content of " ++ request.url⟩
  deleteFailure := fun _ => none

/-- A host on which the deletion of the bucket `scheidsrechter-app-v0` fails. -/
def brokenDeleteHost : Host where
  network := fun request => Settled.fulfilled ⟨"content of " ++ request.url⟩
  deleteFailure := fun cacheName =>
    if cacheName == "scheidsrechter-app-v0" then some ⟨"delete failed"⟩ else none

/-- No bucket, no fetch issued yet. -/
def emptyWorld : World := { caches := [], fetched := [] }

/-- A stale bucket of an earlier version next to the current bucket, two
entries each. -/
def staleWorld : World where
  caches :=
    [("scheidsrechter-app-v0", [(⟨"/"⟩, ⟨"old page"⟩), (⟨"/old.css"⟩, ⟨"old style"⟩)]),
     (CACHE_NAME, [(⟨"/"⟩, ⟨"page"⟩), (⟨"/app/static/icon-192.png"⟩, ⟨"icon"⟩)])]
  fetched := []

/-- Two stale buckets and the current one. -/
def twoStaleWorld : World where
  caches :=
    [("scheidsrechter-app-v0", [(⟨"/"⟩, ⟨"old page"⟩)]),
     ("scheidsrechter-app-beta", [(⟨"/beta"⟩, ⟨"beta page"⟩)]),
     (CACHE_NAME, [(⟨"/"⟩, ⟨"page"⟩)])]
  fetched := []

/-! ## Lemmas on the host model -/

theorem onFetch_eq (h : Host) (request : Request) (w : World) :
    onFetch h request w =
      match w.caches.findSome? (fun bucket => cache_match bucket.2 request) with
      | some cached => (Settled.fulfilled cached, w)
      | none => (h.network request, { w with fetched := w.fetched ++ [request] }) := by
  unfold onFetch respondWith Promise.then_ caches_match
  cases hfind : w.caches.findSome? (fun bucket => cache_match bucket.2 request) <;>
    simp [fetch, Promise.resolve]

/-- The world `Promise.all` leaves: every promise of the list has run, in order. -/
theorem all_cons_world {α : Type} (p : Promise α) (ps : List (Promise α)) (w : World) :
    (Promise.all (p :: ps) w).2 = (Promise.all ps (p w).2).2 := by
  simp only [Promise.all]
  rcases p w with ⟨r, w1⟩
  rcases Promise.all ps w1 with ⟨rs, w2⟩
  cases r <;> cases rs <;> rfl

/-- The settlement of `Promise.all`: the first rejection, or all the values. -/
theorem all_cons_settled {α : Type} (p : Promise α) (ps : List (Promise α)) (w : World) :
    (Promise.all (p :: ps) w).1 =
      match (p w).1, (Promise.all ps (p w).2).1 with
      | Settled.rejected reason, _ => Settled.rejected reason
      | Settled.fulfilled _, Settled.rejected reason => Settled.rejected reason
      | Settled.fulfilled value, Settled.fulfilled values => Settled.fulfilled (value :: values) := by
  simp only [Promise.all]
  rcases p w with ⟨r, w1⟩
  rcases Promise.all ps w1 with ⟨rs, w2⟩
  cases r <;> cases rs <;> rfl

theorem caches_delete_world (h : Host) (n : String) (w : World) :
    (caches_delete h n w).2 =
      { w with caches := w.caches.filter (fun bucket =>
          !(bucket.1 == n && (h.deleteFailure n).isNone)) } := by
  unfold caches_delete
  cases hdel : h.deleteFailure n with
  | some reason => simp
  | none => simp; rfl

theorem caches_delete_settled (h : Host) (n : String) (w : World) :
    (caches_delete h n w).1 =
      match h.deleteFailure n with
      | some reason => Settled.rejected reason
      | none => Settled.fulfilled (w.caches.any (fun bucket => bucket.1 == n)) := by
  unfold caches_delete
  cases hdel : h.deleteFailure n <;> simp

theorem all_delete_world (h : Host) (names : List String) (w : World) :
    (Promise.all (names.map (fun cacheName => caches_delete h cacheName)) w).2 =
      { w with caches := w.caches.filter (fun bucket =>
          !(names.contains bucket.1 && (h.deleteFailure bucket.1).isNone)) } := by
  induction names generalizing w with
  | nil => simp [Promise.all]
  | cons n ns ih =>
    rw [List.map_cons, all_cons_world, ih, caches_delete_world]
    simp only [List.filter_filter, World.mk.injEq, and_true]
    apply List.filter_congr
    intro bucket _
    by_cases hb : bucket.1 = n
    · subst hb; cases h.deleteFailure bucket.1 <;> simp
    · simp [hb]

theorem all_delete_fulfilled (h : Host) (names : List String) (w : World) :
    (∃ values, (Promise.all (names.map (fun cacheName => caches_delete h cacheName)) w).1 =
        Settled.fulfilled values) ↔ ∀ n ∈ names, h.deleteFailure n = none := by
  induction names generalizing w with
  | nil => simp [Promise.all]
  | cons n ns ih =>
    rw [List.map_cons, all_cons_settled, caches_delete_settled]
    have ih1 := ih (caches_delete h n w).2
    cases hdel : h.deleteFailure n with
    | some reason => simp [hdel]
    | none =>
      simp only [List.mem_cons, forall_eq_or_imp, hdel, true_and]
      rw [← ih1]
      cases hrest : (Promise.all (List.map (fun cacheName => caches_delete h cacheName) ns)
          (caches_delete h n w).2).1 <;> simp

theorem all_delete_rejected (h : Host) (names : List String) (w : World) (reason : Rejection)
    (hrej : (Promise.all (names.map (fun cacheName => caches_delete h cacheName)) w).1 =
        Settled.rejected reason) :
    ∃ n ∈ names, h.deleteFailure n = some reason := by
  induction names generalizing w with
  | nil => simp [Promise.all] at hrej
  | cons n ns ih =>
    rw [List.map_cons, all_cons_settled, caches_delete_settled] at hrej
    cases hdel : h.deleteFailure n with
    | some r =>
      simp only [hdel] at hrej
      exact ⟨n, List.mem_cons_self _ _, by rw [hdel]; congr 1; injection hrej⟩
    | none =>
      simp only [hdel] at hrej
      cases hrest : (Promise.all (List.map (fun cacheName => caches_delete h cacheName) ns)
          (caches_delete h n w).2).1 with
      | fulfilled vs => rw [hrest] at hrej; simp at hrej
      | rejected r =>
        rw [hrest] at hrej
        simp only [Settled.rejected.injEq] at hrej
        subst hrej
        obtain ⟨m, hm, hmr⟩ := ih _ hrest
        exact ⟨m, List.mem_cons_of_mem _ hm, hmr⟩

theorem onActivate_eq (h : Host) (w : World) :
    onActivate h w =
      Promise.all
        (((w.caches.map (fun bucket => bucket.1)).filter
            (fun cacheName => cacheName != CACHE_NAME)).map
          (fun cacheName => caches_delete h cacheName)) w := rfl

/-- The world activation leaves: a bucket stays when it carries the current
name or when its deletion failed; the fetch log is not touched. -/
theorem onActivate_world (h : Host) (w : World) :
    (onActivate h w).2 =
      { w with caches := w.caches.filter (fun bucket =>
          bucket.1 == CACHE_NAME || (h.deleteFailure bucket.1).isSome) } := by
  rw [onActivate_eq, all_delete_world]
  simp only [World.mk.injEq, and_true]
  apply List.filter_congr
  intro bucket hmem
  by_cases hname : bucket.1 = CACHE_NAME
  · simp [hname]
  · have hin : bucket.1 ∈ List.map (fun bucket => bucket.1) w.caches :=
      List.mem_map_of_mem (fun bucket => bucket.1) hmem
    cases hdel : h.deleteFailure bucket.1 <;> simp [hname, hin, hdel]

/-- Activation is fulfilled exactly when no deletion of a stale bucket fails. -/
theorem onActivate_fulfilled (h : Host) (w : World) :
    (∃ values, (onActivate h w).1 = Settled.fulfilled values) ↔
      ∀ bucket ∈ w.caches, bucket.1 ≠ CACHE_NAME → h.deleteFailure bucket.1 = none := by
  rw [onActivate_eq, all_delete_fulfilled]
  constructor
  · intro hall bucket hmem hname
    apply hall
    simp only [List.mem_filter, List.mem_map]
    exact ⟨⟨bucket, hmem, rfl⟩, by simpa using hname⟩
  · intro hall n hn
    simp only [List.mem_filter, List.mem_map] at hn
    obtain ⟨⟨bucket, hmem, rfl⟩, hne⟩ := hn
    exact hall bucket hmem (by simpa using hne)

theorem all_fetch_world (h : Host) (urls : List String) (w : World) :
    (Promise.all (urls.map (fun url => fetch h (Request.mk url))) w).2 =
      { w with fetched := w.fetched ++ urls.map Request.mk } := by
  induction urls generalizing w with
  | nil => simp [Promise.all]
  | cons u us ih =>
    rw [List.map_cons, all_cons_world, ih]
    simp [fetch]

/-- When the batch of fetches is fulfilled, its values are the answers of the
network, URL by URL. -/
theorem all_fetch_values (h : Host) (urls : List String) (w : World) (responses : List Response)
    (hall : (Promise.all (urls.map (fun url => fetch h (Request.mk url))) w).1 =
      Settled.fulfilled responses) :
    urls.map (fun url => h.network (Request.mk url)) = responses.map Settled.fulfilled := by
  induction urls generalizing w responses with
  | nil =>
    simp only [List.map_nil, Promise.all, Settled.fulfilled.injEq] at hall
    subst hall; rfl
  | cons u us ih =>
    rw [List.map_cons, all_cons_settled] at hall
    have hu : (fetch h (Request.mk u) w).1 = h.network (Request.mk u) := rfl
    rw [hu] at hall
    cases hnet : h.network (Request.mk u) with
    | rejected reason => rw [hnet] at hall; simp at hall
    | fulfilled r =>
      rw [hnet] at hall
      cases hrest : (Promise.all (List.map (fun url => fetch h (Request.mk url)) us)
          (fetch h (Request.mk u) w).2).1 with
      | rejected reason => rw [hrest] at hall; simp at hall
      | fulfilled rs =>
        rw [hrest] at hall
        simp only [Settled.fulfilled.injEq] at hall
        subst hall
        simp [hnet, ih _ rs hrest]

theorem all_fetch_fulfilled (h : Host) (urls : List String) (w : World) :
    (∃ responses, (Promise.all (urls.map (fun url => fetch h (Request.mk url))) w).1 =
        Settled.fulfilled responses) ↔
      ∀ url ∈ urls, ∃ response, h.network (Request.mk url) = Settled.fulfilled response := by
  induction urls generalizing w with
  | nil => simp [Promise.all]
  | cons u us ih =>
    rw [List.map_cons, all_cons_settled]
    have hu : (fetch h (Request.mk u) w).1 = h.network (Request.mk u) := rfl
    rw [hu]
    have ih1 := ih (fetch h (Request.mk u) w).2
    simp only [List.mem_cons, forall_eq_or_imp]
    rw [← ih1]
    cases hnet : h.network (Request.mk u) with
    | rejected reason => simp
    | fulfilled r =>
      cases hrest : (Promise.all (List.map (fun url => fetch h (Request.mk url)) us)
          (fetch h (Request.mk u) w).2).1 <;> simp

theorem all_fetch_rejected (h : Host) (urls : List String) (w : World) (reason : Rejection)
    (hrej : (Promise.all (urls.map (fun url => fetch h (Request.mk url))) w).1 =
      Settled.rejected reason) :
    ∃ url ∈ urls, h.network (Request.mk url) = Settled.rejected reason := by
  induction urls generalizing w with
  | nil => simp [Promise.all] at hrej
  | cons u us ih =>
    rw [List.map_cons, all_cons_settled] at hrej
    have hu : (fetch h (Request.mk u) w).1 = h.network (Request.mk u) := rfl
    rw [hu] at hrej
    cases hnet : h.network (Request.mk u) with
    | rejected r =>
      rw [hnet] at hrej
      simp only [Settled.rejected.injEq] at hrej
      subst hrej
      exact ⟨u, List.mem_cons_self _ _, hnet⟩
    | fulfilled r =>
      rw [hnet] at hrej
      cases hrest : (Promise.all (List.map (fun url => fetch h (Request.mk url)) us)
          (fetch h (Request.mk u) w).2).1 with
      | fulfilled rs => rw [hrest] at hrej; simp at hrej
      | rejected r2 =>
        rw [hrest] at hrej
        simp only [Settled.rejected.injEq] at hrej
        subst hrej
        obtain ⟨url, hmem, hurl⟩ := ih _ hrest
        exact ⟨url, List.mem_cons_of_mem _ hmem, hurl⟩

theorem cache_match_put_same (cache : Cache) (request : Request) (response : Response) :
    cache_match (cache_put cache request response) request = some response := by
  simp [cache_match, cache_put, List.find?_append]

theorem cache_match_put_other (cache : Cache) (request other : Request) (response : Response)
    (hne : other ≠ request) :
    cache_match (cache_put cache other response) request = cache_match cache request := by
  have hfilter : List.find? (fun entry => entry.1 == request)
      (List.filter (fun entry => entry.1 != other) cache) =
      List.find? (fun entry => entry.1 == request) cache := by
    induction cache with
    | nil => rfl
    | cons entry rest ih =>
      by_cases h1 : entry.1 = request
      · have h2 : entry.1 ≠ other := fun h => hne (h ▸ h1)
        simp [List.filter_cons, h1, List.find?_cons, Ne.symm hne]
      · by_cases h2 : entry.1 = other
        · simp [List.filter_cons, h2, List.find?_cons, ih, hne]
        · simp [List.filter_cons, h1, h2, List.find?_cons, ih]
  simp [cache_match, cache_put, List.find?_append, hfilter, hne]


theorem cache_match_mem (cache : Cache) (request : Request) (response : Response)
    (hmatch : cache_match cache request = some response) : (request, response) ∈ cache := by
  simp only [cache_match, Option.map_eq_some'] at hmatch
  obtain ⟨entry, hfind, hresp⟩ := hmatch
  have hkey := List.find?_some hfind
  have hmem := List.mem_of_find?_eq_some hfind
  have hreq : entry.1 = request := by simpa using hkey
  rw [← hreq, ← hresp]
  exact hmem

/-- Looking a request up after a batch of puts: the entry is the one of the
batch when the batch has one and agrees on it, and the one the bucket had
otherwise. -/
theorem foldl_put_match (entries : List (Request × Response)) (cache : Cache)
    (request : Request) (response : Response)
    (hsame : ∀ entry ∈ entries, entry.1 = request → entry.2 = response)
    (hin : (request, response) ∈ entries ∨ cache_match cache request = some response) :
    cache_match (entries.foldl (fun cache entry => cache_put cache entry.1 entry.2) cache)
      request = some response := by
  induction entries generalizing cache with
  | nil =>
    rcases hin with hin | hin
    · simp at hin
    · exact hin
  | cons entry rest ih =>
    rw [List.foldl_cons]
    apply ih
    · intro e he
      exact hsame e (List.mem_cons_of_mem _ he)
    · by_cases hkey : entry.1 = request
      · right
        have hval := hsame entry (List.mem_cons_self _ _) hkey
        rw [hkey, hval]
        exact cache_match_put_same cache request response
      · rcases hin with hin | hin
        · rcases List.mem_cons.1 hin with heq | hmem
          · exact absurd (by rw [← heq]) hkey
          · exact Or.inl hmem
        · right
          rw [cache_match_put_other cache request entry.1 entry.2 hkey]
          exact hin

theorem lookupBucket_open (cacheName : String) (w : World) :
    lookupBucket (caches_open cacheName w).2.caches cacheName =
      some ((lookupBucket w.caches cacheName).getD []) := by
  unfold caches_open
  by_cases hany : w.caches.any (fun bucket => bucket.1 == cacheName) = true
  · rw [if_pos hany]
    simp only [List.any_eq_true] at hany
    obtain ⟨bucket, hmem, hname⟩ := hany
    cases hfind : List.find? (fun bucket => bucket.1 == cacheName) w.caches with
    | none =>
      rw [List.find?_eq_none] at hfind
      exact absurd hname (hfind bucket hmem)
    | some found => simp [lookupBucket, hfind]
  · rw [if_neg hany]
    have hnone : List.find? (fun bucket => bucket.1 == cacheName) w.caches = none := by
      rw [List.find?_eq_none]
      intro bucket hmem hname
      exact hany (List.any_eq_true.2 ⟨bucket, hmem, hname⟩)
    simp [lookupBucket, List.find?_append, hnone]

theorem lookupBucket_putAll (cacheName : String) (entries : List (Request × Response)) (w : World) :
    lookupBucket (cache_putAll cacheName entries w).2.caches cacheName =
      (lookupBucket w.caches cacheName).map
        (fun cache => entries.foldl (fun cache entry => cache_put cache entry.1 entry.2) cache) := by
  have hlist : ∀ storage : CacheStorage,
      lookupBucket (storage.map (fun bucket =>
          if bucket.1 == cacheName then
            (bucket.1, entries.foldl (fun cache entry => cache_put cache entry.1 entry.2) bucket.2)
          else bucket)) cacheName =
        (lookupBucket storage cacheName).map
          (fun cache => entries.foldl (fun cache entry => cache_put cache entry.1 entry.2) cache) := by
    intro storage
    induction storage with
    | nil => rfl
    | cons bucket rest ih =>
      unfold lookupBucket at ih ⊢
      rw [List.map_cons]
      cases hname : bucket.1 == cacheName with
      | true =>
        simp only [hname, if_true, List.find?_cons, Option.map_some']
      | false =>
        simp only [hname, Bool.false_eq_true, if_false, List.find?_cons]
        exact ih
  exact hlist w.caches

theorem onInstall_eq (h : Host) (w : World) :
    onInstall h w = cache_addAll h CACHE_NAME urlsToCache (caches_open CACHE_NAME w).2 := by
  unfold onInstall waitUntil Promise.then_ caches_open
  split_ifs <;> rfl

theorem cache_addAll_fulfilled (h : Host) (cacheName : String) (urls : List String) (w : World)
    (responses : List Response)
    (hall : (Promise.all (urls.map (fun url => fetch h (Request.mk url))) w).1 =
      Settled.fulfilled responses) :
    cache_addAll h cacheName urls w =
      cache_putAll cacheName ((urls.map Request.mk).zip responses)
        { w with fetched := w.fetched ++ urls.map Request.mk } := by
  have hw := all_fetch_world h urls w
  unfold cache_addAll Promise.then_
  rcases hres : Promise.all (urls.map (fun url => fetch h (Request.mk url))) w with ⟨r, w1⟩
  rw [hres] at hall hw
  simp only at hall hw
  subst hall hw
  rfl

theorem cache_addAll_rejected (h : Host) (cacheName : String) (urls : List String) (w : World)
    (reason : Rejection)
    (hrej : (Promise.all (urls.map (fun url => fetch h (Request.mk url))) w).1 =
      Settled.rejected reason) :
    cache_addAll h cacheName urls w =
      (Settled.rejected reason, { w with fetched := w.fetched ++ urls.map Request.mk }) := by
  have hw := all_fetch_world h urls w
  unfold cache_addAll Promise.then_
  rcases hres : Promise.all (urls.map (fun url => fetch h (Request.mk url))) w with ⟨r, w1⟩
  rw [hres] at hrej hw
  simp only at hrej hw
  subst hrej hw
  rfl

/-- The entries a fulfilled batch stores are the answers of the network. -/
theorem zip_entries (h : Host) (urls : List String) (responses : List Response)
    (hvalues : urls.map (fun url => h.network (Request.mk url)) =
      responses.map Settled.fulfilled) :
    (∀ entry ∈ (urls.map Request.mk).zip responses,
        h.network entry.1 = Settled.fulfilled entry.2) ∧
      ∀ url ∈ urls, ∃ response, h.network (Request.mk url) = Settled.fulfilled response ∧
        (Request.mk url, response) ∈ (urls.map Request.mk).zip responses := by
  induction urls generalizing responses with
  | nil => simp
  | cons u us ih =>
    cases responses with
    | nil => simp at hvalues
    | cons r rs =>
      simp only [List.map_cons, List.cons.injEq] at hvalues
      obtain ⟨hu, hrest⟩ := hvalues
      obtain ⟨ih1, ih2⟩ := ih rs hrest
      constructor
      · intro entry hmem
        simp only [List.map_cons, List.zip_cons_cons, List.mem_cons] at hmem
        rcases hmem with rfl | hmem
        · exact hu
        · exact ih1 entry hmem
      · intro url hmem
        rcases List.mem_cons.1 hmem with rfl | hmem
        · exact ⟨r, hu, by simp⟩
        · obtain ⟨response, hnet, hin⟩ := ih2 url hmem
          exact ⟨response, hnet, by simp [hin]⟩

/-! ## The claims -/

/-- C2: when the cache lookup `caches.match` finds an entry for the request,
the fetch handler responds with exactly that cached response and issues no
network fetch (the fetch log is as before; nothing else changes either). -/
theorem fetch_hit_serves_cache (h : Host) (w : World) (request : Request) (cached : Response)
    (hhit : (caches_match request w).1 = Settled.fulfilled (some cached)) :
    (onFetch h request w).1 = Settled.fulfilled cached ∧
      (onFetch h request w).2.fetched = w.fetched ∧ (onFetch h request w).2 = w := by
  simp only [caches_match, Settled.fulfilled.injEq] at hhit
  rw [onFetch_eq, hhit]
  exact ⟨rfl, rfl, rfl⟩

/-- Witness of C2: `/` is in the stale world's buckets; it is served from the
cache even though the network is down. -/
theorem fetch_hit_serves_cache_witness :
    (onFetch offlineHost ⟨"/"⟩ staleWorld).1 = Settled.fulfilled ⟨"old page"⟩ ∧
      (onFetch offlineHost ⟨"/"⟩ staleWorld).2.fetched = [] ∧
      (onFetch offlineHost ⟨"/"⟩ staleWorld).2 = staleWorld :=
  fetch_hit_serves_cache offlineHost staleWorld ⟨"/"⟩ ⟨"old page"⟩ (by decide)

/-- C3: when the cache lookup finds no entry for the request, the fetch handler
issues exactly one network fetch, for that same request (the log grows by that
one request), and responds with what that fetch settles to. -/
theorem fetch_miss_goes_to_network (h : Host) (w : World) (request : Request)
    (hmiss : (caches_match request w).1 = Settled.fulfilled none) :
    (onFetch h request w).2.fetched = w.fetched ++ [request] ∧
      (onFetch h request w).1 = h.network request := by
  simp only [caches_match, Settled.fulfilled.injEq] at hmiss
  rw [onFetch_eq, hmiss]
  exact ⟨rfl, rfl⟩

/-- Witness of C3: `/api/matches` is in no bucket of the stale world. -/
theorem fetch_miss_goes_to_network_witness :
    (onFetch onlineHost ⟨"/api/matches"⟩ staleWorld).2.fetched = [] ++ [⟨"/api/matches"⟩] ∧
      (onFetch onlineHost ⟨"/api/matches"⟩ staleWorld).1 =
        Settled.fulfilled ⟨"content of /api/matches"⟩ :=
  fetch_miss_goes_to_network onlineHost staleWorld ⟨"/api/matches"⟩ (by decide)

/-- C6: when the cache lookup finds no entry and the network fetch is rejected,
the response of the fetch handler is rejected with that same reason: nothing is
substituted, and the network was asked once only. -/
theorem fetch_miss_failure_propagates (h : Host) (w : World) (request : Request)
    (reason : Rejection)
    (hmiss : (caches_match request w).1 = Settled.fulfilled none)
    (hfail : h.network request = Settled.rejected reason) :
    (onFetch h request w).1 = Settled.rejected reason ∧
      (onFetch h request w).2.fetched = w.fetched ++ [request] := by
  simp only [caches_match, Settled.fulfilled.injEq] at hmiss
  rw [onFetch_eq, hmiss]
  exact ⟨hfail, rfl⟩

/-- Witness of C6: the uncached `/data.json` while the network is down. -/
theorem fetch_miss_failure_propagates_witness :
    (onFetch offlineHost ⟨"/data.json"⟩ staleWorld).1 = Settled.rejected ⟨"network down"⟩ ∧
      (onFetch offlineHost ⟨"/data.json"⟩ staleWorld).2.fetched = [] ++ [⟨"/data.json"⟩] :=
  fetch_miss_failure_propagates offlineHost staleWorld ⟨"/data.json"⟩ ⟨"network down"⟩
    (by decide) rfl

/-- C7: the fetch handler never changes cache storage, whatever the storage,
the request and the answer of the network: the buckets and their entries after
the handler are those before it. -/
theorem fetch_leaves_caches (h : Host) (w : World) (request : Request) :
    (onFetch h request w).2.caches = w.caches := by
  rw [onFetch_eq]
  cases w.caches.findSome? (fun bucket => cache_match bucket.2 request) <;> rfl

/-- C9: the lookup of the fetch handler is over all buckets and takes no
account of `CACHE_NAME`.  When one bucket, not named `CACHE_NAME`, holds an
entry for the request and no other bucket does, the handler responds with that
entry and issues no network fetch.  (The proof never uses the hypothesis on the
name: the name of the bucket plays no part in the lookup.) -/
theorem fetch_hit_in_stale_bucket (h : Host) (w : World) (request : Request)
    (before after : CacheStorage) (cacheName : String) (cache : Cache) (cached : Response)
    (hstorage : w.caches = before ++ (cacheName, cache) :: after)
    (_hstale : cacheName ≠ CACHE_NAME)
    (hentry : cache_match cache request = some cached)
    (hothers : ∀ bucket ∈ before ++ after, cache_match bucket.2 request = none) :
    (onFetch h request w).1 = Settled.fulfilled cached ∧
      (onFetch h request w).2.fetched = w.fetched := by
  have hfind : w.caches.findSome? (fun bucket => cache_match bucket.2 request) = some cached := by
    rw [hstorage, List.findSome?_append]
    have hnone : before.findSome? (fun bucket => cache_match bucket.2 request) = none := by
      rw [List.findSome?_eq_none_iff]
      intro bucket hmem
      exact hothers bucket (List.mem_append_left _ hmem)
    rw [hnone]
    simp [List.findSome?_cons, hentry]
  rw [onFetch_eq, hfind]
  exact ⟨rfl, rfl⟩

/-- Witness of C9: `/old.css` is only in the stale bucket `scheidsrechter-app-v0`. -/
theorem fetch_hit_in_stale_bucket_witness :
    (onFetch offlineHost ⟨"/old.css"⟩ staleWorld).1 = Settled.fulfilled ⟨"old style"⟩ ∧
      (onFetch offlineHost ⟨"/old.css"⟩ staleWorld).2.fetched = [] :=
  fetch_hit_in_stale_bucket offlineHost staleWorld ⟨"/old.css"⟩ []
    [(CACHE_NAME, [(⟨"/"⟩, ⟨"page"⟩), (⟨"/app/static/icon-192.png"⟩, ⟨"icon"⟩)])]
    "scheidsrechter-app-v0" [(⟨"/"⟩, ⟨"old page"⟩), (⟨"/old.css"⟩, ⟨"old style"⟩)]
    ⟨"old style"⟩ rfl (by decide) (by decide) (by decide)

/-- Counterexample to C4: the deletion of the stale bucket fails.  The activate
handler settles (it is rejected) and the stale bucket, whose name is not
`CACHE_NAME`, is still in cache storage afterwards. -/
theorem activate_leaves_undeletable_bucket :
    (onActivate brokenDeleteHost staleWorld).1 = Settled.rejected ⟨"delete failed"⟩ ∧
      bucketNames (onActivate brokenDeleteHost staleWorld).2.caches =
        ["scheidsrechter-app-v0", CACHE_NAME] ∧
      "scheidsrechter-app-v0" ∈ bucketNames (onActivate brokenDeleteHost staleWorld).2.caches ∧
      "scheidsrechter-app-v0" ≠ CACHE_NAME := by
  decide

/-- C4, amended: whatever the buckets at the start, after the activate handler
has settled a bucket whose name differs from `CACHE_NAME` remains only when
its own deletion failed; so once the handler has completed successfully the
name of every bucket left in cache storage is `CACHE_NAME`, and the handler
does complete successfully when no deletion of a stale bucket fails. -/
theorem activate_removes_stale (h : Host) (w : World) :
    (∀ cacheName ∈ bucketNames (onActivate h w).2.caches,
        cacheName = CACHE_NAME ∨ ∃ reason, h.deleteFailure cacheName = some reason) ∧
      ((∃ values, (onActivate h w).1 = Settled.fulfilled values) →
        ∀ cacheName ∈ bucketNames (onActivate h w).2.caches, cacheName = CACHE_NAME) ∧
      ((∀ bucket ∈ w.caches, bucket.1 ≠ CACHE_NAME → h.deleteFailure bucket.1 = none) →
        ∃ values, (onActivate h w).1 = Settled.fulfilled values) := by
  have hleft : ∀ cacheName ∈ bucketNames (onActivate h w).2.caches,
      ∃ bucket ∈ w.caches, bucket.1 = cacheName ∧
        (cacheName = CACHE_NAME ∨ ∃ reason, h.deleteFailure cacheName = some reason) := by
    intro cacheName hmem
    rw [onActivate_world] at hmem
    simp only [bucketNames, List.mem_map, List.mem_filter] at hmem
    obtain ⟨bucket, ⟨hin, hkeep⟩, rfl⟩ := hmem
    refine ⟨bucket, hin, rfl, ?_⟩
    by_cases hname : bucket.1 = CACHE_NAME
    · exact Or.inl hname
    · right
      cases hdel : h.deleteFailure bucket.1 with
      | none => simp [hname, hdel] at hkeep
      | some reason => exact ⟨reason, rfl⟩
  refine ⟨fun cacheName hmem => ?_, fun hdone cacheName hmem => ?_, (onActivate_fulfilled h w).2⟩
  · obtain ⟨_, _, _, hor⟩ := hleft cacheName hmem
    exact hor
  · have hall := (onActivate_fulfilled h w).1 hdone
    obtain ⟨bucket, hin, hb, hor⟩ := hleft cacheName hmem
    rcases hor with hname | ⟨reason, hfail⟩
    · exact hname
    · by_cases hname : cacheName = CACHE_NAME
      · exact hname
      · have hnone := hall bucket hin (by rw [hb]; exact hname)
        rw [hb, hfail] at hnone
        exact absurd hnone (by simp)

/-- Witness of C4, amended: from two stale buckets and the current one, with
no failing deletion, activation completes successfully and only the current
bucket is left. -/
theorem activate_removes_stale_witness :
    (∃ values, (onActivate onlineHost twoStaleWorld).1 = Settled.fulfilled values) ∧
      (∀ cacheName ∈ bucketNames (onActivate onlineHost twoStaleWorld).2.caches,
        cacheName = CACHE_NAME) ∧
      bucketNames (onActivate onlineHost twoStaleWorld).2.caches = [CACHE_NAME] :=
  ⟨(activate_removes_stale onlineHost twoStaleWorld).2.2 (fun _ _ _ => rfl),
    (activate_removes_stale onlineHost twoStaleWorld).2.1
      ((activate_removes_stale onlineHost twoStaleWorld).2.2 (fun _ _ _ => rfl)),
    by decide⟩

/-- C8: activation leaves the current bucket untouched.  When cache storage
has a bucket named `CACHE_NAME`, that bucket is there after activation with
exactly the entries it had; more precisely the buckets of that name are, in
order, those of before. -/
theorem activate_keeps_current (h : Host) (w : World) (cache : Cache)
    (hcurrent : lookupBucket w.caches CACHE_NAME = some cache) :
    lookupBucket (onActivate h w).2.caches CACHE_NAME = some cache ∧
      (onActivate h w).2.caches.filter (fun bucket => bucket.1 == CACHE_NAME) =
        w.caches.filter (fun bucket => bucket.1 == CACHE_NAME) := by
  have hfilter : (onActivate h w).2.caches.filter (fun bucket => bucket.1 == CACHE_NAME) =
      w.caches.filter (fun bucket => bucket.1 == CACHE_NAME) := by
    rw [onActivate_world]
    simp only [List.filter_filter]
    apply List.filter_congr
    intro bucket _
    cases hname : bucket.1 == CACHE_NAME <;> simp
  refine ⟨?_, hfilter⟩
  have hfind : ∀ storage : CacheStorage, lookupBucket storage CACHE_NAME =
      ((storage.filter (fun bucket => bucket.1 == CACHE_NAME)).head?).map
        (fun bucket => bucket.2) := by
    intro storage
    simp [lookupBucket, List.filter_head?]
  rw [hfind, hfilter, ← hfind]
  exact hcurrent

/-- Witness of C8: the stale bucket is deleted and the current bucket still
holds its two entries. -/
theorem activate_keeps_current_witness :
    lookupBucket (onActivate onlineHost staleWorld).2.caches CACHE_NAME =
        some [(⟨"/"⟩, ⟨"page"⟩), (⟨"/app/static/icon-192.png"⟩, ⟨"icon"⟩)] ∧
      (onActivate onlineHost staleWorld).2.caches.filter (fun bucket => bucket.1 == CACHE_NAME) =
        staleWorld.caches.filter (fun bucket => bucket.1 == CACHE_NAME) :=
  activate_keeps_current onlineHost staleWorld
    [(⟨"/"⟩, ⟨"page"⟩), (⟨"/app/static/icon-192.png"⟩, ⟨"icon"⟩)] (by decide)

/-- The example of C8 in full: after activation the stale bucket is gone and
the storage is the current bucket with its two entries. -/
theorem activate_example :
    (onActivate onlineHost staleWorld).2.caches =
      [(CACHE_NAME, [(⟨"/"⟩, ⟨"page"⟩), (⟨"/app/static/icon-192.png"⟩, ⟨"icon"⟩)])] := by
  decide

/-- Counterexample to C10: the same buckets, on a host whose deletions succeed
and on a host where the deletion of the stale bucket fails.  The first
activation is fulfilled, the second is rejected with the failure of the
deletion: the outcome of the handler depends on the outcome of the deletion. -/
theorem activate_outcome_depends_on_deletion :
    (onActivate onlineHost staleWorld).1 = Settled.fulfilled [true] ∧
      (onActivate brokenDeleteHost staleWorld).1 = Settled.rejected ⟨"delete failed"⟩ := by
  decide

/-- C10, amended: the deletions of activation are awaited together
(`Promise.all`), not forgotten.  The activate handler completes successfully
exactly when the deletion of every stale bucket succeeds; when it is rejected,
the reason is the failure of the deletion of a stale bucket, passed on as it is
(nothing compensates for it); and in either case every deletion has been
carried out: a bucket is left exactly when it has the current name or its own
deletion failed. -/
theorem activate_awaits_deletions (h : Host) (w : World) :
    ((∃ values, (onActivate h w).1 = Settled.fulfilled values) ↔
        ∀ bucket ∈ w.caches, bucket.1 ≠ CACHE_NAME → h.deleteFailure bucket.1 = none) ∧
      (∀ reason, (onActivate h w).1 = Settled.rejected reason →
        ∃ bucket ∈ w.caches, bucket.1 ≠ CACHE_NAME ∧ h.deleteFailure bucket.1 = some reason) ∧
      (onActivate h w).2.caches =
        w.caches.filter (fun bucket =>
          bucket.1 == CACHE_NAME || (h.deleteFailure bucket.1).isSome) := by
  refine ⟨onActivate_fulfilled h w, ?_, ?_⟩
  · intro reason hrej
    rw [onActivate_eq] at hrej
    obtain ⟨n, hn, hdel⟩ := all_delete_rejected h _ w reason hrej
    simp only [List.mem_filter, List.mem_map] at hn
    obtain ⟨⟨bucket, hmem, rfl⟩, hne⟩ := hn
    exact ⟨bucket, hmem, by simpa using hne, hdel⟩
  · rw [onActivate_world]

/-- Witness of C10, amended: with two stale buckets of which one cannot be
deleted, activation is rejected, the other stale bucket is deleted all the
same, and the bucket that could not be deleted stays. -/
theorem activate_awaits_deletions_witness :
    (onActivate brokenDeleteHost twoStaleWorld).1 = Settled.rejected ⟨"delete failed"⟩ ∧
      (∃ bucket ∈ twoStaleWorld.caches,
        bucket.1 ≠ CACHE_NAME ∧ brokenDeleteHost.deleteFailure bucket.1 = some ⟨"delete failed"⟩) ∧
      bucketNames (onActivate brokenDeleteHost twoStaleWorld).2.caches =
        ["scheidsrechter-app-v0", CACHE_NAME] :=
  ⟨by decide,
    (activate_awaits_deletions brokenDeleteHost twoStaleWorld).2.1 ⟨"delete failed"⟩ (by decide),
    by decide⟩

/-- C1: whatever the cache storage at the start, on a network that answers
every URL of `urlsToCache` the install handler completes successfully, and
afterwards the bucket named `CACHE_NAME` exists and holds, for every URL of
`urlsToCache`, an entry: the response the network gave for it, which is also
what a lookup of the URL in the bucket returns. -/
theorem install_populates_bucket (h : Host) (w : World)
    (hnet : ∀ url ∈ urlsToCache, ∃ response,
      h.network (Request.mk url) = Settled.fulfilled response) :
    (onInstall h w).1 = Settled.fulfilled () ∧
      ∃ cache, lookupBucket (onInstall h w).2.caches CACHE_NAME = some cache ∧
        ∀ url ∈ urlsToCache, ∃ response,
          h.network (Request.mk url) = Settled.fulfilled response ∧
          (Request.mk url, response) ∈ cache ∧
          cache_match cache (Request.mk url) = some response := by
  obtain ⟨responses, hall⟩ :=
    (all_fetch_fulfilled h urlsToCache (caches_open CACHE_NAME w).2).2 hnet
  have hvalues := all_fetch_values h urlsToCache _ responses hall
  obtain ⟨hsame, hin⟩ := zip_entries h urlsToCache responses hvalues
  rw [onInstall_eq, cache_addAll_fulfilled h CACHE_NAME urlsToCache _ responses hall]
  refine ⟨rfl, ?_⟩
  rw [lookupBucket_putAll]
  have hopen := lookupBucket_open CACHE_NAME w
  refine ⟨_, by rw [show ({ (caches_open CACHE_NAME w).2 with
      fetched := (caches_open CACHE_NAME w).2.fetched ++ urlsToCache.map Request.mk } : World).caches
        = (caches_open CACHE_NAME w).2.caches from rfl, hopen]; rfl, ?_⟩
  intro url hurl
  obtain ⟨response, hresp, hentry⟩ := hin url hurl
  have hmatch := foldl_put_match ((urlsToCache.map Request.mk).zip responses)
    ((lookupBucket w.caches CACHE_NAME).getD []) (Request.mk url) response
    (by
      intro entry hmem hkey
      have h1 := hsame entry hmem
      rw [hkey, hresp] at h1
      exact (Settled.fulfilled.inj h1).symm)
    (Or.inl hentry)
  exact ⟨response, hresp, cache_match_mem _ _ _ hmatch, hmatch⟩

/-- Witness of C1: install on an online host, from the stale world (where the
current bucket already holds an older entry for `/`). -/
theorem install_populates_bucket_witness :
    (onInstall onlineHost staleWorld).1 = Settled.fulfilled () ∧
      ∃ cache, lookupBucket (onInstall onlineHost staleWorld).2.caches CACHE_NAME = some cache ∧
        ∀ url ∈ urlsToCache, ∃ response,
          onlineHost.network (Request.mk url) = Settled.fulfilled response ∧
          (Request.mk url, response) ∈ cache ∧
          cache_match cache (Request.mk url) = some response :=
  install_populates_bucket onlineHost staleWorld (fun _ _ => ⟨_, rfl⟩)

/-- The install of C1 on the empty storage, in full: the bucket is created and
holds the three assets, and the three URLs were fetched. -/
theorem install_example :
    onInstall onlineHost emptyWorld =
      (Settled.fulfilled (),
        { caches := [(CACHE_NAME,
            [(⟨"/"⟩, ⟨"content of /"⟩),
             (⟨"/app/static/icon-192.png"⟩, ⟨"content of /app/static/icon-192.png"⟩),
             (⟨"/app/static/icon-512.png"⟩, ⟨"content of /app/static/icon-512.png"⟩)])],
          fetched := [⟨"/"⟩, ⟨"/app/static/icon-192.png"⟩, ⟨"/app/static/icon-512.png"⟩] }) := by
  decide

/-- C5: install is all or nothing.  The install handler completes successfully
exactly when the fetch of every URL of `urlsToCache` succeeds.  When the fetch
of some URL fails, the handler is rejected, with the reason of a failed fetch
of the list, and no entry of the batch is stored: cache storage is what opening
the bucket left, the storage of before with the bucket `CACHE_NAME` added empty
if it was not there. -/
theorem install_all_or_nothing (h : Host) (w : World) :
    ((onInstall h w).1 = Settled.fulfilled () ↔
        ∀ url ∈ urlsToCache, ∃ response,
          h.network (Request.mk url) = Settled.fulfilled response) ∧
      ((∃ url ∈ urlsToCache, ∃ reason, h.network (Request.mk url) = Settled.rejected reason) →
        (∃ reason, (onInstall h w).1 = Settled.rejected reason ∧
          ∃ url ∈ urlsToCache, h.network (Request.mk url) = Settled.rejected reason) ∧
        (onInstall h w).2.caches =
          (if w.caches.any (fun bucket => bucket.1 == CACHE_NAME) then w.caches
           else w.caches ++ [(CACHE_NAME, [])])) := by
  have hopen : (caches_open CACHE_NAME w).2.caches =
      (if w.caches.any (fun bucket => bucket.1 == CACHE_NAME) then w.caches
       else w.caches ++ [(CACHE_NAME, [])]) := by
    unfold caches_open
    split_ifs <;> rfl
  cases hall : (Promise.all (urlsToCache.map (fun url => fetch h (Request.mk url)))
      (caches_open CACHE_NAME w).2).1 with
  | fulfilled responses =>
    have hok := (all_fetch_fulfilled h urlsToCache (caches_open CACHE_NAME w).2).1
      ⟨responses, hall⟩
    rw [onInstall_eq, cache_addAll_fulfilled h CACHE_NAME urlsToCache _ responses hall]
    refine ⟨⟨fun _ => hok, fun _ => rfl⟩, ?_⟩
    rintro ⟨url, hurl, reason, hrej⟩
    obtain ⟨response, hresp⟩ := hok url hurl
    rw [hresp] at hrej
    exact absurd hrej (by simp)
  | rejected reason =>
    have hbad := all_fetch_rejected h urlsToCache _ reason hall
    rw [onInstall_eq, cache_addAll_rejected h CACHE_NAME urlsToCache _ reason hall]
    refine ⟨⟨fun hdone => absurd hdone (by simp), fun hok => ?_⟩, fun _ => ⟨⟨reason, rfl, hbad⟩, hopen⟩⟩
    obtain ⟨url, hurl, hrej⟩ := hbad
    obtain ⟨response, hresp⟩ := hok url hurl
    rw [hresp] at hrej
    exact absurd hrej (by simp)

/-- Witness of C5: one asset of the three cannot be fetched.  Install is
rejected with the reason of that fetch and the storage is as it was, although
the two other assets were fetched. -/
theorem install_all_or_nothing_witness :
    ((∃ reason, (onInstall missingIconHost staleWorld).1 = Settled.rejected reason ∧
        ∃ url ∈ urlsToCache,
          missingIconHost.network (Request.mk url) = Settled.rejected reason) ∧
      (onInstall missingIconHost staleWorld).2.caches =
        (if staleWorld.caches.any (fun bucket => bucket.1 == CACHE_NAME) then staleWorld.caches
         else staleWorld.caches ++ [(CACHE_NAME, [])])) ∧
      (onInstall missingIconHost staleWorld).1 = Settled.rejected ⟨"icon-512 unreachable"⟩ ∧
      (onInstall missingIconHost staleWorld).2.caches = staleWorld.caches :=
  ⟨(install_all_or_nothing missingIconHost staleWorld).2
      ⟨"/app/static/icon-512.png", by decide, ⟨"icon-512 unreachable"⟩, by decide⟩,
    by decide, by decide⟩

end SW
